import Mathlib

/-!
Verification development for the ANISE astrodynamics data engine core.

The Rust sources are shallowly embedded: machine integers (`i32`, `u32`) become
`Int`/`Nat` (no claim below exercises wrap-around), `f64` arithmetic becomes real
arithmetic, fallible functions return `Option`/`Except`-style results, and a Rust
panic (out-of-bounds array write, failed `unwrap`) is a distinguished result
constructor. Fixed-capacity `heapless` containers become bounded association
lists. Definitions follow the source files `structure/lookuptable.rs`,
`orientations/paths.rs` and `astro/aberration.rs`; the few collaborators that are
not part of the sources (segment selection, `rotate_vector`, DCM composition) are
modelled from the specification and marked as such.
-/

namespace Anise

/-- NAIF identifiers are `i32` in the source; modelled as unbounded integers. -/
abbrev NaifId := Int

/-- Decidable equality for `Except`, so that concrete runs can be settled by `decide`. -/
instance {ε α : Type} [DecidableEq ε] [DecidableEq α] : DecidableEq (Except ε α) := fun a b =>
  match a, b with
  | .ok x, .ok y =>
    if h : x = y then isTrue (by rw [h]) else isFalse (by intro hc; cases hc; exact h rfl)
  | .error x, .error y =>
    if h : x = y then isTrue (by rw [h]) else isFalse (by intro hc; cases hc; exact h rfl)
  | .ok _, .error _ => isFalse (by intro hc; cases hc)
  | .error _, .ok _ => isFalse (by intro hc; cases hc)

/-! ### Lookup table (`structure/lookuptable.rs`) -/

/-- Capacity bound `MAX_LUT_ENTRIES` of the lookup table. -/
def MAX_LUT_ENTRIES : Nat := 32

/-- A lookup table entry: start and end indexes (`u32` in the source) into the
dataset's data array. -/
structure Entry where
  start_idx : Nat
  end_idx : Nat
deriving DecidableEq

/-- Names are `&str` in the source. They are modelled as their UTF-8 byte
sequences, so that decoding of arbitrary DER octet strings can be stated. -/
abbrev LutName := List Nat

/-- First-match association-list lookup; models indexing a `heapless::FnvIndexMap`. -/
def lookupL {K V : Type} [DecidableEq K] : List (K × V) → K → Option V
  | [], _ => none
  | p :: rest, k => if p.1 = k then some p.2 else lookupL rest k

/-- Model of `heapless::FnvIndexMap::insert` on an insertion-ordered association
list with capacity `cap`: replaces in place when the key is present (even at
capacity), appends when there is room, and fails (`none`) when the map is full
and the key is new. -/
def mapInsert {K V : Type} [DecidableEq K] (m : List (K × V)) (k : K) (v : V)
    (cap : Nat) : Option (List (K × V)) :=
  if (lookupL m k).isSome then
    some (m.map (fun p => if p.1 = k then (k, v) else p))
  else if m.length < cap then some (m ++ [(k, v)])
  else none

/-- `LookUpTable`: bidirectional map from ids and from names to entries. -/
structure LookUpTable where
  by_id : List (NaifId × Entry)
  by_name : List (LutName × Entry)
deriving DecidableEq

/-- The default (empty) lookup table. -/
def LookUpTable.empty : LookUpTable := ⟨[], []⟩

/-- The error variant relevant to the lookup table (`AniseError::StructureIsFull`). -/
inductive AniseError where
  | structureIsFull
deriving DecidableEq

/-- `LookUpTable::append`. The source inserts into `by_id` first and returns on
its error; when the `by_name` insert then fails, the `by_id` change has already
happened, so the modified table is returned together with the error. -/
def LookUpTable.append (lut : LookUpTable) (id : NaifId) (name : LutName)
    (entry : Entry) : LookUpTable × Option AniseError :=
  match mapInsert lut.by_id id entry MAX_LUT_ENTRIES with
  | none => (lut, some .structureIsFull)
  | some byId2 =>
    match mapInsert lut.by_name name entry MAX_LUT_ENTRIES with
    | none => ({ lut with by_id := byId2 }, some .structureIsFull)
    | some byName2 => ({ by_id := byId2, by_name := byName2 }, none)

/-- `LookUpTable::check_integrity`: trivially true when either side is empty,
false on a length mismatch, else every `by_id` value must appear among the
`by_name` values. -/
def LookUpTable.check_integrity (lut : LookUpTable) : Bool :=
  if lut.by_id.isEmpty || lut.by_name.isEmpty then true
  else if lut.by_id.length ≠ lut.by_name.length then false
  else lut.by_id.all (fun p => lut.by_name.any (fun q => decide (q.2 = p.2)))

/-- Runs a sequence of `append` calls from a given table; `none` when any call
in the sequence returns an error. -/
def runAppends : LookUpTable → List (NaifId × LutName × Entry) → Option LookUpTable
  | lut, [] => some lut
  | lut, (id, name, entry) :: rest =>
    match lut.append id name entry with
    | (lut2, none) => runAppends lut2 rest
    | (_, some _) => none

/-- Continuation-byte check (`0x80..=0xBF`) for UTF-8 validation. -/
def utf8Cont (b : Nat) : Bool := 0x80 ≤ b && b ≤ 0xBF

/-- Standard UTF-8 validity of a byte sequence, as enforced by
`core::str::from_utf8` (RFC 3629: no overlong forms, no surrogates, at most
four bytes per scalar). -/
def utf8Valid : List Nat → Bool
  | [] => true
  | b :: rest =>
    if b ≤ 0x7F then utf8Valid rest
    else if 0xC2 ≤ b && b ≤ 0xDF then
      match rest with
      | b1 :: r => utf8Cont b1 && utf8Valid r
      | [] => false
    else if b == 0xE0 then
      match rest with
      | b1 :: b2 :: r => (0xA0 ≤ b1 && b1 ≤ 0xBF) && utf8Cont b2 && utf8Valid r
      | _ => false
    else if (0xE1 ≤ b && b ≤ 0xEC) || b == 0xEE || b == 0xEF then
      match rest with
      | b1 :: b2 :: r => utf8Cont b1 && utf8Cont b2 && utf8Valid r
      | _ => false
    else if b == 0xED then
      match rest with
      | b1 :: b2 :: r => (0x80 ≤ b1 && b1 ≤ 0x9F) && utf8Cont b2 && utf8Valid r
      | _ => false
    else if b == 0xF0 then
      match rest with
      | b1 :: b2 :: b3 :: r => (0x90 ≤ b1 && b1 ≤ 0xBF) && utf8Cont b2 && utf8Cont b3 && utf8Valid r
      | _ => false
    else if 0xF1 ≤ b && b ≤ 0xF3 then
      match rest with
      | b1 :: b2 :: b3 :: r => utf8Cont b1 && utf8Cont b2 && utf8Cont b3 && utf8Valid r
      | _ => false
    else if b == 0xF4 then
      match rest with
      | b1 :: b2 :: b3 :: r => (0x80 ≤ b1 && b1 ≤ 0x8F) && utf8Cont b2 && utf8Cont b3 && utf8Valid r
      | _ => false
    else false

/-- First loop of `Decode for LookUpTable`:
`for (id, entry) in ids.iter().zip(entries.iter())` inserting with `unwrap()`.
`none` models the `unwrap` panicking. -/
def lutDecodeIds : LookUpTable → List (NaifId × Entry) → Option LookUpTable
  | lut, [] => some lut
  | lut, (id, e) :: rest =>
    match mapInsert lut.by_id id e MAX_LUT_ENTRIES with
    | none => none
    | some m => lutDecodeIds { lut with by_id := m } rest

/-- Second loop of `Decode for LookUpTable`, over `names.iter().zip(entries.iter())`:
`core::str::from_utf8(..).unwrap()` panics (`none`) on invalid UTF-8, and the
map insert is also unwrapped. -/
def lutDecodeNames : LookUpTable → List (LutName × Entry) → Option LookUpTable
  | lut, [] => some lut
  | lut, (nm, e) :: rest =>
    if utf8Valid nm then
      match mapInsert lut.by_name nm e MAX_LUT_ENTRIES with
      | none => none
      | some m => lutDecodeNames { lut with by_name := m } rest
    else none

/-- `Decode for LookUpTable` after the three DER sequences (ids, names, entries)
have been read. The integrity check at the end only logs a warning, so it does
not affect the returned value; `none` models a Rust panic inside the loops. -/
def lutDecode (ids : List NaifId) (names : List LutName) (entries : List Entry) :
    Option LookUpTable :=
  match lutDecodeIds LookUpTable.empty (ids.zip entries) with
  | none => none
  | some lut1 =>
    match lutDecodeNames lut1 (names.zip entries) with
    | none => none
    | some lut2 => some lut2

/-! ### Orientation frame tree (`orientations/paths.rs`) -/

/-- **Limitation:** no translation or rotation may have more than 8 nodes. -/
def MAX_TREE_DEPTH : Nat := 8

/-- Orientation id of the J2000 inertial frame. -/
def J2000 : NaifId := 1

/-- Orientation id of the Ecliptic J2000 frame. -/
def ECLIPJ2000 : NaifId := 17

/-- `i32::MAX`, the initial value of `common_center` in the root search. -/
def I32_MAX : Int := 2147483647

/-- A frame: a pair of an ephemeris (origin) id and an orientation id. -/
structure Frame where
  ephemeris_id : NaifId
  orientation_id : NaifId
deriving DecidableEq

/-- Epochs are only ever compared against coverage bounds here, so ET seconds
are modelled as integers. -/
abbrev Epoch := Int

/-- The fields of a BPC summary record used by the frame-tree resolver: the
described frame, its inertial parent frame, the coverage window, and whether
the summary slot is blank (`is_empty`). -/
structure BPCSummaryRecord where
  frame_id : NaifId
  inertial_frame_id : NaifId
  start_epoch : Epoch
  end_epoch : Epoch
  is_empty : Bool
deriving DecidableEq

/-- The parts of the almanac the orientation resolver reads: the loaded BPC
files in load order (each a list of summary records in file order) and the
planetary-constants dataset as `(id, parent_id)` pairs in table order. -/
structure Almanac where
  bpc_data : List (List BPCSummaryRecord)
  planetary_data : List (NaifId × NaifId)
deriving DecidableEq

/-- Orientation error variants reachable in `orientations/paths.rs`. -/
inductive OrientationError where
  | noOrientationsLoaded
  | orientationDataSet
  | bpcMaxRecursionDepth
  | rotationOrigin (from_frame to_frame : Frame) (epoch : Epoch)
deriving DecidableEq

/-- One step of the BPC scan in `try_find_orientation_root`: adopt the summary's
inertial frame id when the summary is non-blank and its absolute value is
strictly smaller; return early (`Except.error`) when the new center is J2000. -/
def bpcStep (acc : Except NaifId NaifId) (s : BPCSummaryRecord) : Except NaifId NaifId :=
  match acc with
  | .error r => .error r
  | .ok cc =>
    if s.is_empty = false ∧ s.inertial_frame_id.natAbs < cc.natAbs then
      if s.inertial_frame_id = J2000 then .error J2000 else .ok s.inertial_frame_id
    else .ok cc

/-- One step of the planetary-data scan in `try_find_orientation_root`: adopt a
parent id when it is smaller in *signed* comparison; return early on J2000. -/
def pcStep (acc : Except NaifId NaifId) (p : NaifId × NaifId) : Except NaifId NaifId :=
  match acc with
  | .error r => .error r
  | .ok cc =>
    if p.2 < cc then
      if p.2 = J2000 then .error J2000 else .ok p.2
    else .ok cc

/-- `Almanac::try_find_orientation_root`: requires loaded data, scans the BPC
summaries (files in reverse load order) by minimal absolute id with early return
on J2000, then the planetary parent ids by signed comparison, and finally maps
Ecliptic J2000 to J2000. -/
def try_find_orientation_root (alm : Almanac) : Except OrientationError NaifId :=
  if 0 < alm.bpc_data.length ∨ alm.planetary_data ≠ [] then
    match alm.bpc_data.reverse.foldl (fun acc file => file.foldl bpcStep acc)
        (Except.ok I32_MAX) with
    | .error r => .ok r
    | .ok cc =>
      match (if alm.planetary_data.isEmpty then Except.ok cc
             else alm.planetary_data.foldl pcStep (Except.ok cc)) with
      | .error r => .ok r
      | .ok cc2 => .ok (if cc2 = ECLIPJ2000 then J2000 else cc2)
  else .error .noOrientationsLoaded

/-- Modelled from the spec: `Almanac::bpc_summary_at_epoch` is not among the
sources. Per the spec's segment-selection rule, loaded kernels are visited in
reverse load order and within each file the first summary whose frame id matches
and whose coverage contains the epoch wins. -/
def bpc_summary_at_epoch (alm : Almanac) (id : NaifId) (epoch : Epoch) :
    Option BPCSummaryRecord :=
  alm.bpc_data.reverse.foldl
    (fun acc file =>
      match acc with
      | some s => some s
      | none => file.find? (fun s =>
          decide (s.frame_id = id) && decide (s.start_epoch ≤ epoch) &&
            decide (epoch ≤ s.end_epoch)))
    none

/-- The next hop up the orientation tree for a frame id: the covering BPC
summary's inertial frame id if one exists, else the planetary-constants parent
id (`planetary_data.get_by_id(..).parent_id`); `none` when both fail, which the
caller turns into the dataset error. -/
def orientationParent (alm : Almanac) (id : NaifId) (epoch : Epoch) : Option NaifId :=
  match bpc_summary_at_epoch alm id epoch with
  | some s => some s.inertial_frame_id
  | none => lookupL alm.planetary_data id

/-- Result of a path computation: a value, an error, or a Rust panic
(out-of-bounds array write or a failed `unwrap`). -/
inductive PathResult (α : Type) where
  | ok (val : α)
  | err (e : OrientationError)
  | panicked
deriving DecidableEq

/-- The fixed-capacity path array `[Option<NaifId>; MAX_TREE_DEPTH]`. -/
abbrev OfPath := List (Option NaifId)

/-- Write `Some v` at index `i` of the path array; `none` when the index is out
of bounds (a panic in Rust). -/
def setPath (p : OfPath) (i : Nat) (v : NaifId) : Option OfPath :=
  if i < p.length then some (p.set i (some v)) else none

/-- The `for _ in 0..MAX_TREE_DEPTH - 1` loop of `orientation_path_to_root`:
look up the current frame's parent, write it into the path array, stop when the
root is reached; when the fuel is exhausted the source returns the
`MaxRecursionDepth` BPC error. -/
def pathLoop (alm : Almanac) (epoch : Epoch) (root : NaifId) :
    Nat → NaifId → Nat → OfPath → PathResult (Nat × OfPath)
  | 0, _, _, _ => .err .bpcMaxRecursionDepth
  | fuel + 1, cur, len, p =>
    match orientationParent alm cur epoch with
    | none => .err .orientationDataSet
    | some next =>
      match setPath p len next with
      | none => .panicked
      | some p2 =>
        if next = root then .ok (len + 1, p2)
        else pathLoop alm epoch root fuel next (len + 1) p2

/-- `Almanac::orientation_path_to_root`: find the root, return the empty path
when the source already is the root, take the first hop (inserting the extra
Ecliptic-J2000 → J2000 hop when needed) and then iterate `MAX_TREE_DEPTH - 1`
more times. -/
def orientation_path_to_root (alm : Almanac) (source : Frame) (epoch : Epoch) :
    PathResult (Nat × OfPath) :=
  match try_find_orientation_root alm with
  | .error e => .err e
  | .ok root =>
    if root = source.orientation_id then
      .ok (0, List.replicate MAX_TREE_DEPTH none)
    else
      match orientationParent alm source.orientation_id epoch with
      | none => .err .orientationDataSet
      | some id1 =>
        match setPath (List.replicate MAX_TREE_DEPTH none) 0 id1 with
        | none => .panicked
        | some p1 =>
          if id1 = ECLIPJ2000 then
            match setPath p1 1 J2000 with
            | none => .panicked
            | some p2 =>
              if J2000 = root then .ok (2, p2)
              else pathLoop alm epoch root (MAX_TREE_DEPTH - 1) J2000 2 p2
          else
            if id1 = root then .ok (1, p1)
            else pathLoop alm epoch root (MAX_TREE_DEPTH - 1) id1 1 p1

/-- Inner loop of `common_orientation_path` over the (truncated) `from` path.
`Sum.inl` is an early return of the whole function, `Sum.inr` continues the
outer loop with the updated `(items, common_path)` state. Failed `unwrap`s and
out-of-bounds writes are `panicked`. -/
def innerLoop (to_oid : NaifId) (to_obj : Option NaifId) :
    List (Option NaifId) → Nat → OfPath →
      PathResult (Sum (Nat × OfPath × NaifId) (Nat × OfPath))
  | [], items, cp => .ok (.inr (items, cp))
  | from_obj :: rest, items, cp =>
    let cont : PathResult (Sum (Nat × OfPath × NaifId) (Nat × OfPath)) :=
      if from_obj = to_obj then
        match to_obj with
        | none => .panicked
        | some t => .ok (.inl (items, cp, t))
      else
        match from_obj with
        | none => .panicked
        | some f =>
          match setPath cp items f with
          | none => .panicked
          | some cp2 => innerLoop to_oid to_obj rest (items + 1) cp2
    if items = 0 then
      match from_obj with
      | none => .panicked
      | some f =>
        if f = to_oid then
          match setPath cp 0 to_oid with
          | none => .panicked
          | some cp0 => .ok (.inl (1, cp0, to_oid))
        else cont
    else cont

/-- Outer loop of `common_orientation_path` over the (truncated) `to` path;
falling off the end yields the `RotationOrigin` error of the source. -/
def outerLoop (from_frame to_frame : Frame) (epoch : Epoch)
    (from_taken : List (Option NaifId)) :
    List (Option NaifId) → Nat → OfPath → PathResult (Nat × OfPath × NaifId)
  | [], _, _ => .err (.rotationOrigin from_frame to_frame epoch)
  | to_obj :: rest, items, cp =>
    match to_obj with
    | none => .panicked
    | some t =>
      if t = from_frame.orientation_id then
        match setPath cp 0 from_frame.orientation_id with
        | none => .panicked
        | some cp0 => .ok (1, cp0, from_frame.orientation_id)
      else
        match innerLoop to_frame.orientation_id to_obj from_taken items cp with
        | .panicked => .panicked
        | .err e => .err e
        | .ok (.inl r) => .ok r
        | .ok (.inr (items2, cp2)) =>
          outerLoop from_frame to_frame epoch from_taken rest items2 cp2

/-- `Almanac::common_orientation_path`: equal frames short-circuit with an empty
path, then both paths to root are compared; one empty path makes the other
frame the common node, otherwise the two paths are walked for the first shared
node. -/
def common_orientation_path (alm : Almanac) (from_frame to_frame : Frame)
    (epoch : Epoch) : PathResult (Nat × OfPath × NaifId) :=
  if from_frame = to_frame then
    .ok (0, List.replicate MAX_TREE_DEPTH none, from_frame.orientation_id)
  else
    match orientation_path_to_root alm from_frame epoch with
    | .panicked => .panicked
    | .err e => .err e
    | .ok (from_len, from_path) =>
      match orientation_path_to_root alm to_frame epoch with
      | .panicked => .panicked
      | .err e => .err e
      | .ok (to_len, to_path) =>
        if from_len = 0 ∧ to_len = 0 then
          .err (.rotationOrigin from_frame to_frame epoch)
        else if from_len ≠ 0 ∧ to_len = 0 then
          .ok (from_len, from_path, to_frame.orientation_id)
        else if to_len ≠ 0 ∧ from_len = 0 then
          .ok (to_len, to_path, from_frame.orientation_id)
        else
          outerLoop from_frame to_frame epoch (from_path.take from_len)
            (to_path.take to_len) 0 (List.replicate MAX_TREE_DEPTH none)

/-- The inertial frame ids of the non-blank summaries of a summary list. -/
def obsB (l : List BPCSummaryRecord) : List Int :=
  (l.filter (fun s => !s.is_empty)).map (fun s => s.inertial_frame_id)

/-- The parent ids of a planetary-constants table. -/
def pobs (l : List (NaifId × NaifId)) : List Int := l.map (fun p => p.2)

/-- All orientation parent ids "observed" by the root search, in its scan order:
the inertial frame ids of non-blank summaries of the loaded BPCs (files in
reverse load order) followed by the planetary-constants parent ids. -/
def observedOrientationIds (alm : Almanac) : List Int :=
  obsB alm.bpc_data.reverse.flatten ++ pobs alm.planetary_data

/-- Fold of `min` over a list with a starting value. -/
def minL (b : Int) (l : List Int) : Int := l.foldl min b

/-! ### Stellar aberration (`astro/aberration.rs`)

`f64` arithmetic is modelled by real arithmetic. -/

/-- A 3-vector of (model) doubles. -/
structure Vec3 where
  x : ℝ
  y : ℝ
  z : ℝ

/-- Componentwise sum. -/
noncomputable def Vec3.add (a b : Vec3) : Vec3 := ⟨a.x + b.x, a.y + b.y, a.z + b.z⟩

/-- Componentwise negation. -/
noncomputable def Vec3.neg (a : Vec3) : Vec3 := ⟨-a.x, -a.y, -a.z⟩

/-- Scalar multiple. -/
noncomputable def Vec3.smul (c : ℝ) (a : Vec3) : Vec3 := ⟨c * a.x, c * a.y, c * a.z⟩

/-- Dot product. -/
noncomputable def Vec3.dot (a b : Vec3) : ℝ := a.x * b.x + a.y * b.y + a.z * b.z

/-- Cross product. -/
noncomputable def Vec3.cross (a b : Vec3) : Vec3 :=
  ⟨a.y * b.z - a.z * b.y, a.z * b.x - a.x * b.z, a.x * b.y - a.y * b.x⟩

/-- Euclidean norm. -/
noncomputable def Vec3.norm (a : Vec3) : ℝ := Real.sqrt (a.dot a)

/-- `nalgebra`'s `normalize`: the vector divided by its norm. -/
noncomputable def Vec3.normalize (a : Vec3) : Vec3 := Vec3.smul (1 / a.norm) a

/-- Speed of light in km/s (`constants::SPEED_OF_LIGHT_KM_S`). -/
noncomputable def SPEED_OF_LIGHT_KM_S : ℝ := 299792.458

/-- `core::f64::EPSILON`, exactly `2⁻⁵²`. -/
noncomputable def EPSILON : ℝ := 1 / 2 ^ 52

/-- The aberration correction configuration. -/
structure Aberration where
  converged : Bool
  stellar : Bool
  transmit_mode : Bool
deriving DecidableEq

/-- The `LT+S` configuration (stellar flag set, reception mode). -/
def Aberration.LT_S : Aberration := ⟨false, true, false⟩

/-- The `CN+S` configuration (converged, stellar flag set, reception mode). -/
def Aberration.CN_S : Aberration := ⟨true, true, false⟩

/-- The `LT` configuration (stellar flag not set). -/
def Aberration.LT : Aberration := ⟨false, false, false⟩

/-- Physics error variants reachable from `stellar_aberration`. -/
inductive PhysicsError where
  | aberrationError
  | velocityError
deriving DecidableEq

/-- The `obs_velocity_km_s` binding of `stellar_aberration`: the observer
velocity, negated in transmit mode. -/
noncomputable def obs_velocity (ab : Aberration) (v : Vec3) : Vec3 :=
  if ab.transmit_mode then v.neg else v

/-- The `vbyc` binding of `stellar_aberration`: the (possibly negated) observer
velocity scaled by `1 / c`. -/
noncomputable def vbyc (ab : Aberration) (v : Vec3) : Vec3 :=
  Vec3.smul (1 / SPEED_OF_LIGHT_KM_S) (obs_velocity ab v)

/-- The `h` binding of `stellar_aberration`: `u × (v / c)` with `u` the unit
vector toward the target. -/
noncomputable def aberration_h (t : Vec3) (ab : Aberration) (v : Vec3) : Vec3 :=
  (Vec3.normalize t).cross (vbyc ab v)

/-- The `sin_phi` binding of `stellar_aberration`: `h.norm().abs()`. -/
noncomputable def sin_phi (t : Vec3) (ab : Aberration) (v : Vec3) : ℝ :=
  |(aberration_h t ab v).norm|

/-- Modelled from the spec: `math::rotate_vector` is not among the sources. The
spec says the target is rotated about `h` by `phi` radians; this is Rodrigues'
rotation formula about the normalized axis. -/
noncomputable def rotate_vector (v axis : Vec3) (theta : ℝ) : Vec3 :=
  Vec3.add
    (Vec3.add (Vec3.smul (Real.cos theta) v)
      (Vec3.smul (Real.sin theta) ((axis.normalize).cross v)))
    (Vec3.smul (((axis.normalize).dot v) * (1 - Real.cos theta)) axis.normalize)

/-- `stellar_aberration`: requires the stellar flag, requires sub-light speed
(`vbyc · vbyc < 1`), and rotates the target about `h = u × (v/c)` by
`arcsin |h|` unless `|h|` is within machine epsilon, in which case the target
is returned unchanged. -/
noncomputable def stellar_aberration (target_pos_km obs_wrt_ssb_vel_km_s : Vec3)
    (ab_corr : Aberration) : Except PhysicsError Vec3 :=
  if ab_corr.stellar then
    if (vbyc ab_corr obs_wrt_ssb_vel_km_s).dot (vbyc ab_corr obs_wrt_ssb_vel_km_s) < 1 then
      if EPSILON < sin_phi target_pos_km ab_corr obs_wrt_ssb_vel_km_s then
        .ok (rotate_vector target_pos_km (aberration_h target_pos_km ab_corr obs_wrt_ssb_vel_km_s)
          (Real.arcsin (sin_phi target_pos_km ab_corr obs_wrt_ssb_vel_km_s)))
      else .ok target_pos_km
    else .error .velocityError
  else .error .aberrationError

/-! ### Rotation composition (spec-modelled, for the transpose property)

The almanac's `rotate_from_to` pipeline is not among the sources (only its test
is), so composition is modelled from the spec: each leg is the product of its
per-hop DCMs with the product-rule derivative, and the final DCM is
`(to→C)ᵀ · (from→C)` with the corresponding derivative composition. -/

/-- A direction-cosine matrix together with its time derivative. -/
structure DCM where
  rot_mat : Matrix (Fin 3) (Fin 3) ℝ
  rot_mat_dt : Matrix (Fin 3) (Fin 3) ℝ

/-- Modelled from the spec: DCM composition is the matrix product with the
product rule `d(AB)/dt = A'B + AB'` for the derivative. -/
noncomputable def DCM.compose (a b : DCM) : DCM :=
  ⟨a.rot_mat * b.rot_mat, a.rot_mat_dt * b.rot_mat + a.rot_mat * b.rot_mat_dt⟩

/-- Modelled from the spec: a DCM is inverted by transposing both the rotation
and its derivative. -/
noncomputable def DCM.transposeD (a : DCM) : DCM :=
  ⟨a.rot_mat.transpose, a.rot_mat_dt.transpose⟩

/-- Modelled from the spec: a leg (path from a frame to the common node) is the
fold of the per-hop DCM compositions, starting at the identity rotation with
zero derivative. -/
noncomputable def composeLeg (l : List DCM) : DCM := l.foldl DCM.compose ⟨1, 0⟩

/-- Modelled from the spec: `rotate(from, to)` composes the transposed `to` leg
with the `from` leg, `(to→C)ᵀ · (from→C)`. -/
noncomputable def rotate_from_to_m (fromLeg toLeg : List DCM) : DCM :=
  DCM.compose (DCM.transposeD (composeLeg toLeg)) (composeLeg fromLeg)

/-- Frobenius norm of a 3×3 matrix. -/
noncomputable def frob (m : Matrix (Fin 3) (Fin 3) ℝ) : ℝ :=
  Real.sqrt (∑ i, ∑ j, (m i j) ^ 2)

/-! ### Concrete fixtures -/

/-- An almanac with nothing loaded. -/
def emptyAlmanac : Almanac := ⟨[], []⟩

/-- A synthetic almanac whose orientation chain starts with an Ecliptic-J2000
hop (frame 100 → 17) and then continues 1 → 2 → ⋯ → 8 without reaching the root
(id 0, contributed by the unrelated summary for frame 999). -/
def almDeepChain : Almanac :=
  ⟨[[⟨100, 17, 0, 100, false⟩, ⟨1, 2, 0, 100, false⟩, ⟨2, 3, 0, 100, false⟩,
     ⟨3, 4, 0, 100, false⟩, ⟨4, 5, 0, 100, false⟩, ⟨5, 6, 0, 100, false⟩,
     ⟨6, 7, 0, 100, false⟩, ⟨7, 8, 0, 100, false⟩, ⟨999, 0, 0, 100, false⟩]], []⟩

/-- The query frame for the deep-chain scenario (orientation id 100). -/
def frameDeep : Frame := ⟨399, 100⟩

/-- An almanac with one BPC summary (inertial id 3) and one planetary-constants
entry whose parent id is negative (−100). -/
def almNegParent : Almanac := ⟨[[⟨399, 3, 0, 100, false⟩]], [(699, -100)]⟩

/-- An almanac whose observed orientation ids are 17 and 21, so the minimal one
is Ecliptic J2000. -/
def almEclipMin : Almanac := ⟨[[⟨399, 17, 0, 100, false⟩]], [(699, 21)]⟩

/-- A sample entry. -/
def entryA : Entry := ⟨0, 1⟩

/-- Another sample entry. -/
def entryB : Entry := ⟨2, 3⟩

/-- Two appends with distinct ids but the same name. -/
def opsDup : List (NaifId × LutName × Entry) := [(1, [97], entryA), (2, [97], entryB)]

/-- The table produced by `opsDup`: the second append overwrote the name entry. -/
def lutDup : LookUpTable := ⟨[(1, entryA), (2, entryB)], [([97], entryB)]⟩

/-- Two appends with distinct ids and distinct names. -/
def opsGood : List (NaifId × LutName × Entry) := [(1, [97], entryA), (2, [98], entryB)]

/-- The table produced by `opsGood`. -/
def lutGood : LookUpTable := ⟨[(1, entryA), (2, entryB)], [([97], entryA), ([98], entryB)]⟩

/-- A table whose name side is at capacity (32 names) while the id side is empty. -/
def lutFullNames : LookUpTable :=
  ⟨[], (List.range 32).map (fun i => ([i], Entry.mk 0 0))⟩

/-- The spec's stellar-aberration scenario target, `(1e8, 0, 0)` km. -/
noncomputable def c7_target : Vec3 := ⟨1e8, 0, 0⟩

/-- The scenario observer velocity, `(0, 30, 0)` km/s. -/
noncomputable def c7_vel : Vec3 := ⟨0, 30, 0⟩

/-- A tiny transverse observer velocity whose aberration angle is below machine
epsilon. -/
noncomputable def c7_tiny_vel : Vec3 := ⟨0, 1e-12, 0⟩

/-- The expected aberration angle of the scenario, `arcsin (30 / c)`. -/
noncomputable def c7_phi : ℝ := Real.arcsin (30 / SPEED_OF_LIGHT_KM_S)

/-- The expected apparent position of the scenario: in the XY plane, at angle
`c7_phi` from the X axis. -/
noncomputable def c7_apparent : Vec3 := ⟨1e8 * Real.cos c7_phi, 1e8 * Real.sin c7_phi, 0⟩

/-! ## Theorems -/

/-- Replacing the value at a present key makes lookup find the new value. -/
theorem lookupL_map_replace {K V : Type} [DecidableEq K] (m : List (K × V))
    (k : K) (v : V) (h : (lookupL m k).isSome) :
    lookupL (m.map (fun p => if p.1 = k then (k, v) else p)) k = some v := by
  induction m with
  | nil => simp [lookupL] at h
  | cons p rest ih =>
    by_cases hk : p.1 = k
    · simp [lookupL, hk]
    · simp only [List.map_cons, if_neg hk]
      rw [lookupL, if_neg hk]
      rw [lookupL, if_neg hk] at h
      exact ih h

/-- Appending a fresh key makes lookup find its value. -/
theorem lookupL_append_new {K V : Type} [DecidableEq K] (m : List (K × V))
    (k : K) (v : V) (h : lookupL m k = none) :
    lookupL (m ++ [(k, v)]) k = some v := by
  induction m with
  | nil => simp [lookupL]
  | cons p rest ih =>
    by_cases hk : p.1 = k
    · rw [lookupL, if_pos hk] at h
      simp at h
    · rw [List.cons_append, lookupL, if_neg hk]
      rw [lookupL, if_neg hk] at h
      exact ih h

/-- Looking up the inserted key in the result of a successful `mapInsert` finds
the inserted value. -/
theorem lookupL_mapInsert {K V : Type} [DecidableEq K] {m m2 : List (K × V)}
    {k : K} {v : V} {cap : Nat} (h : mapInsert m k v cap = some m2) :
    lookupL m2 k = some v := by
  unfold mapInsert at h
  split at h
  case isTrue hsome =>
    cases h
    exact lookupL_map_replace m k v hsome
  case isFalse hnone =>
    split at h
    case isTrue hlen =>
      cases h
      exact lookupL_append_new m k v (Option.not_isSome_iff_eq_none.mp hnone)
    case isFalse => exact absurd h (by simp)

/-- C1 (code bug): on a synthetic deep chain that passes through the inserted
Ecliptic-J2000 → J2000 hop, `orientation_path_to_root` performs the ninth write
into the eight-slot path array, i.e. it panics with an out-of-bounds write
instead of returning the `MaxRecursionDepth` error the spec requires. -/
theorem orientation_path_to_root_deep_chain_oob :
    orientation_path_to_root almDeepChain frameDeep 50 = .panicked := by decide

/-- C5 (amended): for two frames that are not equal, an orientation-path query
against an almanac with no loaded BPC and empty planetary data fails with the
no-loaded-data error. -/
theorem common_orientation_path_empty_almanac (f t : Frame) (e : Epoch)
    (hne : f ≠ t) :
    common_orientation_path emptyAlmanac f t e = .err .noOrientationsLoaded := by
  unfold common_orientation_path
  rw [if_neg hne]
  unfold orientation_path_to_root try_find_orientation_root
  simp [emptyAlmanac]

/-- Witness for `common_orientation_path_empty_almanac` at concrete frames. -/
theorem common_orientation_path_empty_almanac_witness :
    common_orientation_path emptyAlmanac ⟨3, 5⟩ ⟨3, 6⟩ 0 = .err .noOrientationsLoaded :=
  common_orientation_path_empty_almanac ⟨3, 5⟩ ⟨3, 6⟩ 0 (by decide)

/-- C5 (counterexample): with the two frames *equal*, the very same query
against the empty almanac short-circuits and returns `Ok` instead of the
no-loaded-data error, so the claim does not hold for every pair of frames. -/
theorem common_orientation_path_equal_frames_ok :
    common_orientation_path emptyAlmanac ⟨3, 5⟩ ⟨3, 5⟩ 0 =
      .ok (0, List.replicate MAX_TREE_DEPTH none, 5) := by decide

/-- C2 (counterexample): with a negative planetary parent id, the root search
returns −100 even though 3 is also observed and has the strictly smaller
absolute value, because the planetary scan compares signed values. -/
theorem try_find_orientation_root_negative_parent :
    try_find_orientation_root almNegParent = .ok (-100) ∧
      (3 : Int) ∈ observedOrientationIds almNegParent ∧
      (3 : Int).natAbs < (-100 : Int).natAbs := by decide

/-- C3 (counterexample): two successful appends that reuse a name leave the
table failing its integrity check, so the claim does not hold for arbitrary
sequences of successful appends. -/
theorem runAppends_duplicate_name_not_integral :
    runAppends LookUpTable.empty opsDup = some lutDup ∧
      lutDup.check_integrity = false := by decide

/-- C4 (counterexample): an octet-string name that is not valid UTF-8 makes the
decode loop panic (`none`) instead of returning `Ok`, so decoding does not
succeed for every input that DER-decodes into the three sequences. -/
theorem lutDecode_invalid_utf8_panics :
    lutDecode [] [[255]] [⟨0, 0⟩] = none := by decide

/-- C9: `append` is not atomic — when the `by_id` insert succeeds but the
`by_name` insert fails because that side is full, the structure-is-full error
is returned *and* the `(id, entry)` pair is left inserted in `by_id`. -/
theorem append_not_atomic (lut : LookUpTable) (id : NaifId) (name : LutName)
    (entry : Entry) (byId2 : List (NaifId × Entry))
    (h1 : mapInsert lut.by_id id entry MAX_LUT_ENTRIES = some byId2)
    (h2 : mapInsert lut.by_name name entry MAX_LUT_ENTRIES = none) :
    (lut.append id name entry).2 = some .structureIsFull ∧
      lookupL (lut.append id name entry).1.by_id id = some entry := by
  unfold LookUpTable.append
  rw [h1, h2]
  exact ⟨rfl, lookupL_mapInsert h1⟩

/-- Witness for `append_not_atomic`: a table with 32 names and no ids. -/
theorem append_not_atomic_witness :
    (lutFullNames.append 5 [99] ⟨0, 1⟩).2 = some .structureIsFull ∧
      lookupL (lutFullNames.append 5 [99] ⟨0, 1⟩).1.by_id 5 = some ⟨0, 1⟩ :=
  append_not_atomic lutFullNames 5 [99] ⟨0, 1⟩ [(5, ⟨0, 1⟩)] (by decide) (by decide)

/-- Lookup distributes over append: the left side wins when it has the key. -/
theorem lookupL_append {K V : Type} [DecidableEq K] (m m2 : List (K × V)) (k : K) :
    lookupL (m ++ m2) k =
      match lookupL m k with
      | some v => some v
      | none => lookupL m2 k := by
  induction m with
  | nil => simp [lookupL]
  | cons p rest ih =>
    by_cases hk : p.1 = k
    · rw [List.cons_append, lookupL, if_pos hk, lookupL, if_pos hk]
    · rw [List.cons_append, lookupL, if_neg hk, lookupL, if_neg hk]
      exact ih

/-- Inserting a fresh key into a map with room appends the pair. -/
theorem mapInsert_new {K V : Type} [DecidableEq K] (m : List (K × V)) (k : K)
    (v : V) (cap : Nat) (h1 : lookupL m k = none) (h2 : m.length < cap) :
    mapInsert m k v cap = some (m ++ [(k, v)]) := by
  simp [mapInsert, h1, h2]

/-- Inserting a fresh key into a full map fails. -/
theorem mapInsert_of_full {K V : Type} [DecidableEq K] (m : List (K × V)) (k : K)
    (v : V) (cap : Nat) (h1 : lookupL m k = none) (h2 : ¬ m.length < cap) :
    mapInsert m k v cap = none := by
  simp [mapInsert, h1, h2]

/-- On a list with distinct keys, lookup finds the value of any member pair. -/
theorem lookupL_of_mem_nodup {K V : Type} [DecidableEq K] {l : List (K × V)}
    {k : K} {v : V} (hmem : (k, v) ∈ l) (hnd : (l.map Prod.fst).Nodup) :
    lookupL l k = some v := by
  induction l with
  | nil => cases hmem
  | cons p rest ih =>
    rw [List.map_cons, List.nodup_cons] at hnd
    rcases List.mem_cons.mp hmem with heq | hmem2
    · rw [← heq]
      simp [lookupL]
    · by_cases hk : p.1 = k
      · exfalso
        apply hnd.1
        rw [hk]
        exact List.mem_map_of_mem Prod.fst hmem2
      · rw [lookupL, if_neg hk]
        exact ih hmem2 hnd.2

/-- Characterisation of a run of successful appends with fresh keys: both sides
are extended by the appended pairs in order. -/
theorem runAppends_nodup (ops : List (NaifId × LutName × Entry)) :
    ∀ (lut0 lut : LookUpTable),
      (ops.map (fun t => t.1)).Nodup →
      (ops.map (fun t => t.2.1)).Nodup →
      (∀ t ∈ ops, lookupL lut0.by_id t.1 = none) →
      (∀ t ∈ ops, lookupL lut0.by_name t.2.1 = none) →
      runAppends lut0 ops = some lut →
      lut.by_id = lut0.by_id ++ ops.map (fun t => (t.1, t.2.2)) ∧
        lut.by_name = lut0.by_name ++ ops.map (fun t => (t.2.1, t.2.2)) := by
  induction ops with
  | nil =>
    intro lut0 lut _ _ _ _ hrun
    simp only [runAppends, Option.some.injEq] at hrun
    subst hrun
    simp
  | cons hd rest ih =>
    intro lut0 lut hids hnames hid0 hname0 hrun
    obtain ⟨id, nm, e⟩ := hd
    simp only [List.map_cons, List.nodup_cons] at hids hnames
    have hidnone : lookupL lut0.by_id id = none := hid0 (id, nm, e) (List.mem_cons_self _ _)
    have hnmnone : lookupL lut0.by_name nm = none := hname0 (id, nm, e) (List.mem_cons_self _ _)
    by_cases hlen1 : lut0.by_id.length < MAX_LUT_ENTRIES
    · by_cases hlen2 : lut0.by_name.length < MAX_LUT_ENTRIES
      · have happ : lut0.append id nm e =
            (⟨lut0.by_id ++ [(id, e)], lut0.by_name ++ [(nm, e)]⟩, none) := by
          unfold LookUpTable.append
          rw [mapInsert_new _ _ _ _ hidnone hlen1, mapInsert_new _ _ _ _ hnmnone hlen2]
        rw [runAppends, happ] at hrun
        have hidR : ∀ t ∈ rest, lookupL (lut0.by_id ++ [(id, e)]) t.1 = none := by
          intro t ht
          rw [lookupL_append, hid0 t (List.mem_cons_of_mem _ ht)]
          have hne : id ≠ t.1 := fun hc => hids.1 (hc ▸ List.mem_map_of_mem _ ht)
          simp [lookupL, hne]
        have hnmR : ∀ t ∈ rest, lookupL (lut0.by_name ++ [(nm, e)]) t.2.1 = none := by
          intro t ht
          rw [lookupL_append, hname0 t (List.mem_cons_of_mem _ ht)]
          have hne : nm ≠ t.2.1 := fun hc => hnames.1 (hc ▸ List.mem_map_of_mem _ ht)
          simp [lookupL, hne]
        obtain ⟨hA, hB⟩ := ih ⟨lut0.by_id ++ [(id, e)], lut0.by_name ++ [(nm, e)]⟩ lut
          hids.2 hnames.2 hidR hnmR hrun
        constructor
        · rw [hA]
          simp
        · rw [hB]
          simp
      · exfalso
        have happ : lut0.append id nm e =
            ({ lut0 with by_id := lut0.by_id ++ [(id, e)] }, some .structureIsFull) := by
          unfold LookUpTable.append
          rw [mapInsert_new _ _ _ _ hidnone hlen1, mapInsert_of_full _ _ _ _ hnmnone hlen2]
        rw [runAppends, happ] at hrun
        cases hrun
    · exfalso
      have happ : lut0.append id nm e = (lut0, some .structureIsFull) := by
        unfold LookUpTable.append
        rw [mapInsert_of_full _ _ _ _ hidnone hlen1]
      rw [runAppends, happ] at hrun
      cases hrun

/-- C3 (amended): after any sequence of successful `append(id, name, entry)`
calls with pairwise-distinct ids and pairwise-distinct names, starting from the
empty table, every appended triple is found on both sides with its entry, and
`check_integrity` returns true. -/
theorem appends_consistent (ops : List (NaifId × LutName × Entry)) (lut : LookUpTable)
    (hids : (ops.map (fun t => t.1)).Nodup)
    (hnames : (ops.map (fun t => t.2.1)).Nodup)
    (hrun : runAppends LookUpTable.empty ops = some lut) :
    (∀ t ∈ ops, lookupL lut.by_id t.1 = some t.2.2 ∧
      lookupL lut.by_name t.2.1 = some t.2.2) ∧
    lut.check_integrity = true := by
  obtain ⟨hA, hB⟩ := runAppends_nodup ops LookUpTable.empty lut hids hnames
    (fun t _ => rfl) (fun t _ => rfl) hrun
  simp only [LookUpTable.empty, List.nil_append] at hA hB
  constructor
  · intro t ht
    constructor
    · rw [hA]
      exact lookupL_of_mem_nodup (List.mem_map_of_mem (fun t => (t.1, t.2.2)) ht)
        (by simpa [List.map_map, Function.comp] using hids)
    · rw [hB]
      exact lookupL_of_mem_nodup (List.mem_map_of_mem (fun t => (t.2.1, t.2.2)) ht)
        (by simpa [List.map_map, Function.comp] using hnames)
  · unfold LookUpTable.check_integrity
    rw [hA, hB]
    cases ops with
    | nil => simp
    | cons hd tl =>
      have hlen : ((hd :: tl).map (fun t => (t.1, t.2.2))).length =
          ((hd :: tl).map (fun t => (t.2.1, t.2.2))).length := by
        simp
      rw [if_neg (by simp), if_neg (by simp [hlen])]
      rw [List.all_eq_true]
      intro p hp
      rw [List.any_eq_true]
      obtain ⟨t, ht, rfl⟩ := List.mem_map.mp hp
      exact ⟨(t.2.1, t.2.2), List.mem_map_of_mem _ ht, by simp⟩

/-- Witness for `appends_consistent`: two appends with distinct ids and names. -/
theorem appends_consistent_witness :
    lookupL lutGood.by_id 1 = some entryA ∧ lutGood.check_integrity = true := by
  have h := appends_consistent opsGood lutGood (by decide) (by decide) (by decide)
  exact ⟨(h.1 (1, [97], entryA) (by decide)).1, h.2⟩

/-- A first component of a zipped pair is a member of the first list. -/
theorem mem_map_fst_zip {α β : Type} {a : α} {as : List α} {bs : List β}
    (h : a ∈ (as.zip bs).map Prod.fst) : a ∈ as := by
  obtain ⟨p, hp, rfl⟩ := List.mem_map.mp h
  exact (List.of_mem_zip hp).1

/-- Zipping with a list of distinct keys keeps the keys distinct. -/
theorem map_fst_zip_nodup {α β : Type} (as : List α) (bs : List β) (h : as.Nodup) :
    ((as.zip bs).map Prod.fst).Nodup := by
  induction as generalizing bs with
  | nil => simp
  | cons a tl ih =>
    cases bs with
    | nil => simp
    | cons b bs2 =>
      rw [List.zip_cons_cons, List.map_cons, List.nodup_cons]
      rw [List.nodup_cons] at h
      exact ⟨fun hc => h.1 (mem_map_fst_zip hc), ih bs2 h.2⟩

/-- Characterisation of the id-decode loop on fresh keys with enough capacity:
it cannot panic and extends `by_id` by the pairs in order. -/
theorem lutDecodeIds_run (l : List (NaifId × Entry)) :
    ∀ lut0 : LookUpTable,
      (l.map Prod.fst).Nodup →
      (∀ p ∈ l, lookupL lut0.by_id p.1 = none) →
      lut0.by_id.length + l.length ≤ MAX_LUT_ENTRIES →
      lutDecodeIds lut0 l = some { lut0 with by_id := lut0.by_id ++ l } := by
  induction l with
  | nil =>
    intro lut0 _ _ _
    simp [lutDecodeIds]
  | cons p rest ih =>
    intro lut0 hnd hnone hlen
    obtain ⟨k, v⟩ := p
    rw [List.map_cons, List.nodup_cons] at hnd
    have h0 : lookupL lut0.by_id k = none := hnone (k, v) (List.mem_cons_self _ _)
    have hl : lut0.by_id.length < MAX_LUT_ENTRIES := by
      rw [List.length_cons] at hlen
      omega
    rw [lutDecodeIds, mapInsert_new _ _ _ _ h0 hl]
    have hrest := ih { lut0 with by_id := lut0.by_id ++ [(k, v)] } hnd.2
      (fun q hq => by
        rw [lookupL_append, hnone q (List.mem_cons_of_mem _ hq)]
        have hne : k ≠ q.1 := by
          intro hc
          apply hnd.1
          show k ∈ List.map Prod.fst rest
          rw [hc]
          exact List.mem_map_of_mem Prod.fst hq
        simp [lookupL, hne])
      (by
        show (lut0.by_id ++ [(k, v)]).length + rest.length ≤ MAX_LUT_ENTRIES
        rw [List.length_append]
        rw [List.length_cons] at hlen
        simp only [List.length_singleton]
        omega)
    show lutDecodeIds { lut0 with by_id := lut0.by_id ++ [(k, v)] } rest =
      some { lut0 with by_id := lut0.by_id ++ (k, v) :: rest }
    rw [hrest]
    simp

/-- Characterisation of the name-decode loop on valid-UTF-8, fresh names with
enough capacity: it cannot panic and extends `by_name` by the pairs in order. -/
theorem lutDecodeNames_run (l : List (LutName × Entry)) :
    ∀ lut0 : LookUpTable,
      (l.map Prod.fst).Nodup →
      (∀ p ∈ l, utf8Valid p.1 = true) →
      (∀ p ∈ l, lookupL lut0.by_name p.1 = none) →
      lut0.by_name.length + l.length ≤ MAX_LUT_ENTRIES →
      lutDecodeNames lut0 l = some { lut0 with by_name := lut0.by_name ++ l } := by
  induction l with
  | nil =>
    intro lut0 _ _ _ _
    simp [lutDecodeNames]
  | cons p rest ih =>
    intro lut0 hnd hval hnone hlen
    obtain ⟨k, v⟩ := p
    rw [List.map_cons, List.nodup_cons] at hnd
    have h0 : lookupL lut0.by_name k = none := hnone (k, v) (List.mem_cons_self _ _)
    have hl : lut0.by_name.length < MAX_LUT_ENTRIES := by
      rw [List.length_cons] at hlen
      omega
    rw [lutDecodeNames, if_pos (hval (k, v) (List.mem_cons_self _ _)),
      mapInsert_new _ _ _ _ h0 hl]
    have hrest := ih { lut0 with by_name := lut0.by_name ++ [(k, v)] } hnd.2
      (fun q hq => hval q (List.mem_cons_of_mem _ hq))
      (fun q hq => by
        rw [lookupL_append, hnone q (List.mem_cons_of_mem _ hq)]
        have hne : k ≠ q.1 := by
          intro hc
          apply hnd.1
          show k ∈ List.map Prod.fst rest
          rw [hc]
          exact List.mem_map_of_mem Prod.fst hq
        simp [lookupL, hne])
      (by
        show (lut0.by_name ++ [(k, v)]).length + rest.length ≤ MAX_LUT_ENTRIES
        rw [List.length_append]
        rw [List.length_cons] at hlen
        simp only [List.length_singleton]
        omega)
    show lutDecodeNames { lut0 with by_name := lut0.by_name ++ [(k, v)] } rest =
      some { lut0 with by_name := lut0.by_name ++ (k, v) :: rest }
    rw [hrest]
    simp

/-- C4 (amended): for sequences that fit the DER capacities, whose names are
valid UTF-8, and whose ids and names are unique (as the source requires of a
lookup table), decoding returns `Ok` even when the id and name counts differ:
each side is populated by pairing its keys positionally with the entries
sequence (truncated to the shorter length), and the skew is never surfaced as
a decoding failure. -/
theorem lutDecode_skew_tolerant (ids : List NaifId) (names : List LutName)
    (entries : List Entry)
    (h1 : ids.length ≤ MAX_LUT_ENTRIES) (h2 : names.length ≤ MAX_LUT_ENTRIES)
    (h3 : entries.length ≤ MAX_LUT_ENTRIES)
    (h4 : ∀ nm ∈ names, utf8Valid nm = true)
    (h5 : ids.Nodup) (h6 : names.Nodup) :
    lutDecode ids names entries = some ⟨ids.zip entries, names.zip entries⟩ := by
  have hzi : (ids.zip entries).length ≤ MAX_LUT_ENTRIES := by
    rw [List.length_zip]
    omega
  have hzn : (names.zip entries).length ≤ MAX_LUT_ENTRIES := by
    rw [List.length_zip]
    omega
  have hids2 := lutDecodeIds_run (ids.zip entries) LookUpTable.empty
    (map_fst_zip_nodup ids entries h5) (fun p _ => rfl)
    (by
      show (LookUpTable.empty.by_id).length + (ids.zip entries).length ≤ MAX_LUT_ENTRIES
      simpa [LookUpTable.empty] using hzi)
  have hnm2 := lutDecodeNames_run (names.zip entries) ⟨ids.zip entries, []⟩
    (map_fst_zip_nodup names entries h6)
    (fun p hp => h4 p.1 (List.of_mem_zip hp).1)
    (fun p _ => rfl)
    (by simpa using hzn)
  unfold lutDecode
  rw [hids2]
  simp only [LookUpTable.empty, List.nil_append]
  rw [hnm2]
  simp

/-- Witness for `lutDecode_skew_tolerant`: two ids but only one name. -/
theorem lutDecode_skew_tolerant_witness :
    lutDecode [10, 20] [[97]] [entryA, entryB] =
      some ⟨[(10, entryA), (20, entryB)], [([97], entryA)]⟩ := by
  have h := lutDecode_skew_tolerant [10, 20] [[97]] [entryA, entryB]
    (by decide) (by decide) (by decide) (by decide) (by decide) (by decide)
  exact h

/-- An early return is preserved by the rest of the BPC scan. -/
theorem foldl_bpcStep_error (l : List BPCSummaryRecord) (r : NaifId) :
    l.foldl bpcStep (Except.error r) = Except.error r := by
  induction l with
  | nil => rfl
  | cons s rest ih =>
    rw [List.foldl_cons]
    exact ih

/-- An early return is preserved by the rest of the planetary scan. -/
theorem foldl_pcStep_error (l : List (NaifId × NaifId)) (r : NaifId) :
    l.foldl pcStep (Except.error r) = Except.error r := by
  induction l with
  | nil => rfl
  | cons p rest ih =>
    rw [List.foldl_cons]
    exact ih

/-- The nested fold over files equals the fold over the flattened summary list. -/
theorem foldl_files_flatten (files : List (List BPCSummaryRecord)) :
    ∀ acc : Except NaifId NaifId,
      files.foldl (fun a file => file.foldl bpcStep a) acc =
        files.flatten.foldl bpcStep acc := by
  induction files with
  | nil => intro acc; rfl
  | cons f fs ih =>
    intro acc
    rw [List.foldl_cons, List.flatten_cons, List.foldl_append]
    exact ih _

/-- Unfolding `obsB` over a cons cell. -/
theorem obsB_cons (s : BPCSummaryRecord) (l : List BPCSummaryRecord) :
    obsB (s :: l) = if s.is_empty = true then obsB l
      else s.inertial_frame_id :: obsB l := by
  by_cases h : s.is_empty = true
  · simp [obsB, List.filter_cons, h]
  · simp [obsB, List.filter_cons, h]

/-- `minL` splits over an append. -/
theorem minL_append (b : Int) (l1 l2 : List Int) :
    minL b (l1 ++ l2) = minL (minL b l1) l2 := by
  unfold minL
  rw [List.foldl_append]

/-- `minL` never exceeds its starting value. -/
theorem minL_le_base (l : List Int) : ∀ b : Int, minL b l ≤ b := by
  induction l with
  | nil => intro b; exact le_refl b
  | cons x rest ih =>
    intro b
    calc minL b (x :: rest) = minL (min b x) rest := rfl
    _ ≤ min b x := ih _
    _ ≤ b := min_le_left _ _

/-- `minL` never exceeds a member of the list. -/
theorem minL_le_mem (l : List Int) : ∀ x : Int, x ∈ l → ∀ b : Int, minL b l ≤ x := by
  induction l with
  | nil =>
    intro x hx
    cases hx
  | cons y rest ih =>
    intro x hx b
    rcases List.mem_cons.mp hx with h | h
    · subst h
      calc minL b (x :: rest) = minL (min b x) rest := rfl
      _ ≤ min b x := minL_le_base rest _
      _ ≤ x := min_le_right _ _
    · exact ih x h _

/-- `minL` is the starting value or a member of the list. -/
theorem minL_choice (l : List Int) : ∀ b : Int, minL b l = b ∨ minL b l ∈ l := by
  induction l with
  | nil => intro b; exact Or.inl rfl
  | cons x rest ih =>
    intro b
    have hc : minL b (x :: rest) = minL (min b x) rest := rfl
    rw [hc]
    rcases ih (min b x) with h | h
    · rcases min_choice b x with hm | hm
      · exact Or.inl (h.trans hm)
      · refine Or.inr ?_
        rw [h, hm]
        exact List.mem_cons_self _ _
    · exact Or.inr (List.mem_cons_of_mem _ h)

/-- `minL` of nonnegative values from a nonnegative start is nonnegative. -/
theorem minL_nonneg (l : List Int) :
    ∀ b : Int, (∀ x ∈ l, 0 ≤ x) → 0 ≤ b → 0 ≤ minL b l := by
  induction l with
  | nil =>
    intro b _ hb
    exact hb
  | cons x rest ih =>
    intro b hl hb
    exact ih (min b x) (fun y hy => hl y (List.mem_cons_of_mem _ hy))
      (le_min hb (hl x (List.mem_cons_self _ _)))

/-- When J2000 is observed among nonnegative ids and 0 is not, the minimum is
exactly J2000. -/
theorem minL_eq_J2000_of_mem (L : List Int) (h1 : J2000 ∈ L)
    (hnn : ∀ x ∈ L, 0 ≤ x) (h0 : (0 : Int) ∉ L) :
    minL I32_MAX L = J2000 := by
  have hle : minL I32_MAX L ≤ 1 := minL_le_mem L J2000 h1 I32_MAX
  rcases minL_choice L I32_MAX with h | h
  · exfalso
    rw [h] at hle
    norm_num [I32_MAX] at hle
  · have hge : 0 ≤ minL I32_MAX L := hnn _ h
    have hne : minL I32_MAX L ≠ 0 := fun hc => h0 (hc ▸ h)
    show minL I32_MAX L = 1
    omega

/-- Absolute-value comparison agrees with signed comparison on nonnegatives. -/
theorem natAbs_lt_iff_of_nonneg {a b : Int} (ha : 0 ≤ a) (hb : 0 ≤ b) :
    a.natAbs < b.natAbs ↔ a < b := by
  omega

/-- One has a smaller absolute value than any positive integer other than one. -/
theorem one_natAbs_lt {b : Int} (hb : 0 < b) (hb1 : b ≠ 1) :
    (1 : Int).natAbs < b.natAbs := by
  omega

/-- One is smaller than any positive integer other than one. -/
theorem one_lt_of_pos_ne {b : Int} (hb : 0 < b) (hb1 : b ≠ 1) : (1 : Int) < b := by
  omega

/-- Characterisation of the BPC scan from a nonnegative non-J2000 start, over
nonnegative observed ids with 0 and J2000 not both present: the scan
early-returns J2000 exactly when J2000 is observed, and otherwise computes the
minimum. -/
theorem bpc_fold_char (l : List BPCSummaryRecord) :
    ∀ b : Int, 0 ≤ b → b ≠ J2000 →
      (∀ x ∈ obsB l, 0 ≤ x) →
      (J2000 ∈ obsB l → (0 : Int) ∉ obsB l ∧ 0 < b) →
      l.foldl bpcStep (Except.ok b) =
        if J2000 ∈ obsB l then Except.error J2000 else Except.ok (minL b (obsB l)) := by
  induction l with
  | nil =>
    intro b _ _ _ _
    simp [obsB, minL]
  | cons s rest ih =>
    intro b hb0 hb1 hnn h01
    rw [List.foldl_cons]
    by_cases hemp : s.is_empty = true
    · rw [obsB_cons, if_pos hemp] at hnn h01 ⊢
      have hstep : bpcStep (Except.ok b) s = Except.ok b := by
        simp [bpcStep, hemp]
      rw [hstep]
      exact ih b hb0 hb1 hnn h01
    · rw [obsB_cons, if_neg hemp] at hnn h01 ⊢
      have he : s.is_empty = false := by simpa using hemp
      have hx0 : 0 ≤ s.inertial_frame_id := hnn _ (List.mem_cons_self _ _)
      by_cases hx1 : s.inertial_frame_id = J2000
      · have hmem : J2000 ∈ s.inertial_frame_id :: obsB rest :=
          hx1 ▸ List.mem_cons_self s.inertial_frame_id (obsB rest)
        obtain ⟨h0not, hbpos⟩ := h01 hmem
        have hb1' : b ≠ 1 := hb1
        have hlt : s.inertial_frame_id.natAbs < b.natAbs := by
          rw [hx1]
          exact one_natAbs_lt hbpos hb1'
        have hstep : bpcStep (Except.ok b) s = Except.error J2000 := by
          show (if s.is_empty = false ∧ s.inertial_frame_id.natAbs < b.natAbs then
                  (if s.inertial_frame_id = J2000 then Except.error J2000
                   else Except.ok s.inertial_frame_id)
                else Except.ok b) = Except.error J2000
          rw [if_pos ⟨he, hlt⟩, if_pos hx1]
        rw [hstep, foldl_bpcStep_error, if_pos hmem]
      · have hmemiff : J2000 ∈ s.inertial_frame_id :: obsB rest ↔ J2000 ∈ obsB rest := by
          rw [List.mem_cons]
          constructor
          · rintro (h | h)
            · exact absurd h.symm hx1
            · exact h
          · exact Or.inr
        have hnnR : ∀ y ∈ obsB rest, 0 ≤ y :=
          fun y hy => hnn y (List.mem_cons_of_mem _ hy)
        by_cases hxb : s.inertial_frame_id.natAbs < b.natAbs
        · have hxblt : s.inertial_frame_id < b := (natAbs_lt_iff_of_nonneg hx0 hb0).mp hxb
          have hstep : bpcStep (Except.ok b) s = Except.ok s.inertial_frame_id := by
            show (if s.is_empty = false ∧ s.inertial_frame_id.natAbs < b.natAbs then
                    (if s.inertial_frame_id = J2000 then Except.error J2000
                     else Except.ok s.inertial_frame_id)
                  else Except.ok b) = Except.ok s.inertial_frame_id
            rw [if_pos ⟨he, hxb⟩, if_neg hx1]
          rw [hstep]
          have h01R : J2000 ∈ obsB rest → (0 : Int) ∉ obsB rest ∧ 0 < s.inertial_frame_id := by
            intro hmem2
            have hc := h01 (List.mem_cons_of_mem _ hmem2)
            refine ⟨fun h0 => hc.1 (List.mem_cons_of_mem _ h0), ?_⟩
            rcases lt_or_eq_of_le hx0 with h | h
            · exact h
            · exfalso
              apply hc.1
              rw [← h]
              exact List.mem_cons_self _ _
          rw [ih s.inertial_frame_id hx0 hx1 hnnR h01R]
          have hminbx : min b s.inertial_frame_id = s.inertial_frame_id :=
            min_eq_right (le_of_lt hxblt)
          by_cases hmr : J2000 ∈ obsB rest
          · rw [if_pos hmr, if_pos (hmemiff.mpr hmr)]
          · rw [if_neg hmr, if_neg (fun hc => hmr (hmemiff.mp hc))]
            have heq : minL b (s.inertial_frame_id :: obsB rest) =
                minL (min b s.inertial_frame_id) (obsB rest) := rfl
            rw [heq, hminbx]
        · have hble : b ≤ s.inertial_frame_id :=
            le_of_not_lt (fun hc => hxb ((natAbs_lt_iff_of_nonneg hx0 hb0).mpr hc))
          have hstep : bpcStep (Except.ok b) s = Except.ok b := by
            show (if s.is_empty = false ∧ s.inertial_frame_id.natAbs < b.natAbs then
                    (if s.inertial_frame_id = J2000 then Except.error J2000
                     else Except.ok s.inertial_frame_id)
                  else Except.ok b) = Except.ok b
            rw [if_neg (fun hc => hxb hc.2)]
          rw [hstep]
          have h01R : J2000 ∈ obsB rest → (0 : Int) ∉ obsB rest ∧ 0 < b := by
            intro hmem2
            have hc := h01 (List.mem_cons_of_mem _ hmem2)
            exact ⟨fun h0 => hc.1 (List.mem_cons_of_mem _ h0), hc.2⟩
          rw [ih b hb0 hb1 hnnR h01R]
          have hminbx : min b s.inertial_frame_id = b := min_eq_left hble
          by_cases hmr : J2000 ∈ obsB rest
          · rw [if_pos hmr, if_pos (hmemiff.mpr hmr)]
          · rw [if_neg hmr, if_neg (fun hc => hmr (hmemiff.mp hc))]
            have heq : minL b (s.inertial_frame_id :: obsB rest) =
                minL (min b s.inertial_frame_id) (obsB rest) := rfl
            rw [heq, hminbx]

/-- Characterisation of the planetary scan, analogous to `bpc_fold_char` but
with signed comparison. -/
theorem pc_fold_char (l : List (NaifId × NaifId)) :
    ∀ b : Int, 0 ≤ b → b ≠ J2000 →
      (∀ x ∈ pobs l, 0 ≤ x) →
      (J2000 ∈ pobs l → (0 : Int) ∉ pobs l ∧ 0 < b) →
      l.foldl pcStep (Except.ok b) =
        if J2000 ∈ pobs l then Except.error J2000 else Except.ok (minL b (pobs l)) := by
  induction l with
  | nil =>
    intro b _ _ _ _
    simp [pobs, minL]
  | cons p rest ih =>
    intro b hb0 hb1 hnn h01
    rw [List.foldl_cons]
    have hcons : pobs (p :: rest) = p.2 :: pobs rest := rfl
    rw [hcons] at hnn h01 ⊢
    have hx0 : 0 ≤ p.2 := hnn _ (List.mem_cons_self _ _)
    by_cases hx1 : p.2 = J2000
    · have hmem : J2000 ∈ p.2 :: pobs rest :=
        hx1 ▸ List.mem_cons_self p.2 (pobs rest)
      obtain ⟨h0not, hbpos⟩ := h01 hmem
      have hb1' : b ≠ 1 := hb1
      have hlt : p.2 < b := by
        rw [hx1]
        exact one_lt_of_pos_ne hbpos hb1'
      have hstep : pcStep (Except.ok b) p = Except.error J2000 := by
        show (if p.2 < b then
                (if p.2 = J2000 then Except.error J2000 else Except.ok p.2)
              else Except.ok b) = Except.error J2000
        rw [if_pos hlt, if_pos hx1]
      rw [hstep, foldl_pcStep_error, if_pos hmem]
    · have hmemiff : J2000 ∈ p.2 :: pobs rest ↔ J2000 ∈ pobs rest := by
        rw [List.mem_cons]
        constructor
        · rintro (h | h)
          · exact absurd h.symm hx1
          · exact h
        · exact Or.inr
      have hnnR : ∀ y ∈ pobs rest, 0 ≤ y :=
        fun y hy => hnn y (List.mem_cons_of_mem _ hy)
      by_cases hxb : p.2 < b
      · have hstep : pcStep (Except.ok b) p = Except.ok p.2 := by
          show (if p.2 < b then
                  (if p.2 = J2000 then Except.error J2000 else Except.ok p.2)
                else Except.ok b) = Except.ok p.2
          rw [if_pos hxb, if_neg hx1]
        rw [hstep]
        have h01R : J2000 ∈ pobs rest → (0 : Int) ∉ pobs rest ∧ 0 < p.2 := by
          intro hmem2
          have hc := h01 (List.mem_cons_of_mem _ hmem2)
          refine ⟨fun h0 => hc.1 (List.mem_cons_of_mem _ h0), ?_⟩
          rcases lt_or_eq_of_le hx0 with h | h
          · exact h
          · exfalso
            apply hc.1
            rw [← h]
            exact List.mem_cons_self _ _
        rw [ih p.2 hx0 hx1 hnnR h01R]
        have hminbx : min b p.2 = p.2 := min_eq_right (le_of_lt hxb)
        by_cases hmr : J2000 ∈ pobs rest
        · rw [if_pos hmr, if_pos (hmemiff.mpr hmr)]
        · rw [if_neg hmr, if_neg (fun hc => hmr (hmemiff.mp hc))]
          have heq : minL b (p.2 :: pobs rest) = minL (min b p.2) (pobs rest) := rfl
          rw [heq, hminbx]
      · have hstep : pcStep (Except.ok b) p = Except.ok b := by
          show (if p.2 < b then
                  (if p.2 = J2000 then Except.error J2000 else Except.ok p.2)
                else Except.ok b) = Except.ok b
          rw [if_neg hxb]
        rw [hstep]
        have h01R : J2000 ∈ pobs rest → (0 : Int) ∉ pobs rest ∧ 0 < b := by
          intro hmem2
          have hc := h01 (List.mem_cons_of_mem _ hmem2)
          exact ⟨fun h0 => hc.1 (List.mem_cons_of_mem _ h0), hc.2⟩
        rw [ih b hb0 hb1 hnnR h01R]
        have hminbx : min b p.2 = b := min_eq_left (le_of_not_lt hxb)
        by_cases hmr : J2000 ∈ pobs rest
        · rw [if_pos hmr, if_pos (hmemiff.mpr hmr)]
        · rw [if_neg hmr, if_neg (fun hc => hmr (hmemiff.mp hc))]
          have heq : minL b (p.2 :: pobs rest) = minL (min b p.2) (pobs rest) := rfl
          rw [heq, hminbx]

/-- C2 (amended): for an almanac with loaded data whose observed inertial-frame
ids and planetary parent ids are all nonnegative and do not contain both 0 and
J2000 (1), `try_find_orientation_root` returns the smallest observed identifier
— for nonnegative ids, the one with the smallest absolute value — starting from
`i32::MAX`, with Ecliptic J2000 (17) replaced by J2000 (1). -/
theorem try_find_orientation_root_min (alm : Almanac)
    (hload : 0 < alm.bpc_data.length ∨ alm.planetary_data ≠ [])
    (hnonneg : ∀ x ∈ observedOrientationIds alm, 0 ≤ x)
    (h01 : ¬(J2000 ∈ observedOrientationIds alm ∧
      (0 : Int) ∈ observedOrientationIds alm)) :
    try_find_orientation_root alm =
      Except.ok (if minL I32_MAX (observedOrientationIds alm) = ECLIPJ2000 then J2000
        else minL I32_MAX (observedOrientationIds alm)) := by
  unfold observedOrientationIds at hnonneg h01 ⊢
  unfold try_find_orientation_root
  rw [if_pos hload, foldl_files_flatten]
  have hnnB : ∀ x ∈ obsB alm.bpc_data.reverse.flatten, 0 ≤ x :=
    fun x hx => hnonneg x (List.mem_append_left _ hx)
  have hnnP : ∀ x ∈ pobs alm.planetary_data, 0 ≤ x :=
    fun x hx => hnonneg x (List.mem_append_right _ hx)
  by_cases hc1 : J2000 ∈ obsB alm.bpc_data.reverse.flatten
  · have h1all : J2000 ∈ obsB alm.bpc_data.reverse.flatten ++ pobs alm.planetary_data :=
      List.mem_append_left _ hc1
    have h0not : (0 : Int) ∉ obsB alm.bpc_data.reverse.flatten ++ pobs alm.planetary_data :=
      fun h0 => h01 ⟨h1all, h0⟩
    rw [bpc_fold_char _ I32_MAX (by norm_num [I32_MAX]) (by norm_num [I32_MAX, J2000])
      hnnB (fun _ => ⟨fun h0 => h0not (List.mem_append_left _ h0), by norm_num [I32_MAX]⟩),
      if_pos hc1]
    rw [minL_eq_J2000_of_mem _ h1all hnonneg h0not]
    norm_num [J2000, ECLIPJ2000]
  · rw [bpc_fold_char _ I32_MAX (by norm_num [I32_MAX]) (by norm_num [I32_MAX, J2000])
      hnnB (fun hmem => absurd hmem hc1), if_neg hc1]
    have hb0' : 0 ≤ minL I32_MAX (obsB alm.bpc_data.reverse.flatten) :=
      minL_nonneg _ _ hnnB (by norm_num [I32_MAX])
    have hb1' : minL I32_MAX (obsB alm.bpc_data.reverse.flatten) ≠ J2000 := by
      rcases minL_choice (obsB alm.bpc_data.reverse.flatten) I32_MAX with h | h
      · rw [h]
        norm_num [I32_MAX, J2000]
      · exact fun hc => hc1 (hc ▸ h)
    show (match
        (if alm.planetary_data.isEmpty = true then
            Except.ok (minL I32_MAX (obsB alm.bpc_data.reverse.flatten))
          else List.foldl pcStep
            (Except.ok (minL I32_MAX (obsB alm.bpc_data.reverse.flatten)))
            alm.planetary_data) with
      | Except.error r => Except.ok r
      | Except.ok cc2 => Except.ok (if cc2 = ECLIPJ2000 then J2000 else cc2)) = _
    by_cases hpe : alm.planetary_data = []
    · rw [hpe]
      simp [pobs]
    · have hpeF : alm.planetary_data.isEmpty = false := by
        cases h : alm.planetary_data with
        | nil => exact absurd h hpe
        | cons a l => rfl
      rw [if_neg (show ¬alm.planetary_data.isEmpty = true by simp [hpeF])]
      have h01P : J2000 ∈ pobs alm.planetary_data →
          (0 : Int) ∉ pobs alm.planetary_data ∧
            0 < minL I32_MAX (obsB alm.bpc_data.reverse.flatten) := by
        intro h1P
        have h1all : J2000 ∈ obsB alm.bpc_data.reverse.flatten ++ pobs alm.planetary_data :=
          List.mem_append_right _ h1P
        have h0not : (0 : Int) ∉ obsB alm.bpc_data.reverse.flatten ++ pobs alm.planetary_data :=
          fun h0 => h01 ⟨h1all, h0⟩
        refine ⟨fun h0 => h0not (List.mem_append_right _ h0), ?_⟩
        rcases minL_choice (obsB alm.bpc_data.reverse.flatten) I32_MAX with h | h
        · rw [h]
          norm_num [I32_MAX]
        · have hge := hnnB _ h
          have hne : minL I32_MAX (obsB alm.bpc_data.reverse.flatten) ≠ 0 :=
            fun hc => h0not (List.mem_append_left _ (hc ▸ h))
          omega
      rw [pc_fold_char alm.planetary_data _ hb0' hb1' hnnP h01P]
      by_cases hc1P : J2000 ∈ pobs alm.planetary_data
      · rw [if_pos hc1P]
        have h1all : J2000 ∈ obsB alm.bpc_data.reverse.flatten ++ pobs alm.planetary_data :=
          List.mem_append_right _ hc1P
        have h0not : (0 : Int) ∉ obsB alm.bpc_data.reverse.flatten ++ pobs alm.planetary_data :=
          fun h0 => h01 ⟨h1all, h0⟩
        rw [minL_eq_J2000_of_mem _ h1all hnonneg h0not]
        norm_num [J2000, ECLIPJ2000]
      · rw [if_neg hc1P, minL_append]

/-- Witness for `try_find_orientation_root_min`: observed ids 17 and 21, so the
minimum is Ecliptic J2000 and the returned root is J2000. -/
theorem try_find_orientation_root_min_witness :
    try_find_orientation_root almEclipMin = .ok J2000 := by
  have h := try_find_orientation_root_min almEclipMin (by decide) (by decide) (by decide)
  exact h.trans (by decide)

/-- Componentwise extensionality for `Vec3`. -/
theorem vec3_ext {a b : Vec3} (hx : a.x = b.x) (hy : a.y = b.y) (hz : a.z = b.z) :
    a = b := by
  cases a
  cases b
  simp_all

/-- Negation preserves the self-dot-product. -/
theorem dot_neg_neg (v : Vec3) : (Vec3.neg v).dot (Vec3.neg v) = v.dot v := by
  unfold Vec3.neg Vec3.dot
  ring

/-- Self-dot-product of a scalar multiple. -/
theorem dot_smul_self (c : ℝ) (v : Vec3) :
    (Vec3.smul c v).dot (Vec3.smul c v) = c ^ 2 * v.dot v := by
  unfold Vec3.smul Vec3.dot
  ring

/-- The speed of light constant is positive. -/
theorem speed_pos : 0 < SPEED_OF_LIGHT_KM_S := by
  norm_num [SPEED_OF_LIGHT_KM_S]

/-- The self-dot-product of `vbyc` in terms of the raw velocity. -/
theorem vbyc_dot (ab : Aberration) (v : Vec3) :
    (vbyc ab v).dot (vbyc ab v) = v.dot v / SPEED_OF_LIGHT_KM_S ^ 2 := by
  unfold vbyc obs_velocity
  by_cases h : ab.transmit_mode = true
  · rw [if_pos h, dot_smul_self, dot_neg_neg]
    ring
  · rw [if_neg h, dot_smul_self]
    ring

/-- The sub-light guard of the source is equivalent to the observer speed being
below the speed of light. -/
theorem stellar_speed_iff (ab : Aberration) (v : Vec3) :
    (vbyc ab v).dot (vbyc ab v) < 1 ↔ v.norm < SPEED_OF_LIGHT_KM_S := by
  rw [vbyc_dot, div_lt_one (pow_pos speed_pos 2)]
  unfold Vec3.norm
  exact (Real.sqrt_lt' speed_pos).symm

/-- C6: `stellar_aberration` returns an error exactly when the stellar flag is
disabled or the observer's speed is at least the speed of light; in all other
cases it returns `Ok`. -/
theorem stellar_aberration_error_iff (t v : Vec3) (ab : Aberration) :
    (∃ e, stellar_aberration t v ab = .error e) ↔
      (ab.stellar = false ∨ SPEED_OF_LIGHT_KM_S ≤ v.norm) := by
  unfold stellar_aberration
  by_cases hs : ab.stellar = true
  · rw [if_pos hs]
    by_cases hv : (vbyc ab v).dot (vbyc ab v) < 1
    · rw [if_pos hv]
      constructor
      · rintro ⟨e, he⟩
        by_cases hphi : EPSILON < sin_phi t ab v
        · rw [if_pos hphi] at he
          cases he
        · rw [if_neg hphi] at he
          cases he
      · rintro (h | h)
        · rw [hs] at h
          cases h
        · exact absurd ((stellar_speed_iff ab v).mp hv) (not_lt.mpr h)
    · rw [if_neg hv]
      constructor
      · intro _
        exact Or.inr (not_lt.mp (fun hc => hv ((stellar_speed_iff ab v).mpr hc)))
      · intro _
        exact ⟨.velocityError, rfl⟩
  · rw [if_neg hs]
    constructor
    · intro _
      exact Or.inl (by simpa using hs)
    · intro _
      exact ⟨.aberrationError, rfl⟩

/-- Witness for `stellar_aberration_error_iff` at a concrete input. -/
theorem stellar_aberration_error_iff_witness :
    (∃ e, stellar_aberration ⟨1, 0, 0⟩ ⟨0, 0, 0⟩ Aberration.LT = .error e) ↔
      (Aberration.LT.stellar = false ∨ SPEED_OF_LIGHT_KM_S ≤ Vec3.norm ⟨0, 0, 0⟩) :=
  stellar_aberration_error_iff ⟨1, 0, 0⟩ ⟨0, 0, 0⟩ Aberration.LT

/-- Scaling commutes with negation. -/
theorem smul_neg_vec (c : ℝ) (v : Vec3) :
    Vec3.smul c (Vec3.neg v) = Vec3.neg (Vec3.smul c v) := by
  apply vec3_ext
  · show c * -v.x = -(c * v.x)
    ring
  · show c * -v.y = -(c * v.y)
    ring
  · show c * -v.z = -(c * v.z)
    ring

/-- The cross product is antilinear in negation of its right argument. -/
theorem cross_neg_right (a b : Vec3) :
    a.cross (Vec3.neg b) = Vec3.neg (a.cross b) := by
  apply vec3_ext
  · show a.y * -b.z - a.z * -b.y = -(a.y * b.z - a.z * b.y)
    ring
  · show a.z * -b.x - a.x * -b.z = -(a.z * b.x - a.x * b.z)
    ring
  · show a.x * -b.y - a.y * -b.x = -(a.x * b.y - a.y * b.x)
    ring

/-- Negation preserves the norm. -/
theorem norm_neg_vec (v : Vec3) : (Vec3.neg v).norm = v.norm := by
  unfold Vec3.norm
  rw [dot_neg_neg]

/-- Norms are nonnegative. -/
theorem norm_nonneg_vec (v : Vec3) : 0 ≤ v.norm := Real.sqrt_nonneg _

/-- `sin_phi` does not depend on the transmit-mode negation: it equals the norm
of `u × (v/c)` for the raw observer velocity. -/
theorem sin_phi_eq (t : Vec3) (ab : Aberration) (v : Vec3) :
    sin_phi t ab v =
      ((Vec3.normalize t).cross (Vec3.smul (1 / SPEED_OF_LIGHT_KM_S) v)).norm := by
  unfold sin_phi aberration_h vbyc obs_velocity
  by_cases h : ab.transmit_mode = true
  · rw [if_pos h, smul_neg_vec, cross_neg_right, norm_neg_vec,
      abs_of_nonneg (norm_nonneg_vec _)]
  · rw [if_neg h, abs_of_nonneg (norm_nonneg_vec _)]

/-- C10: with the stellar flag set and sub-light speed, whenever the norm of
`u × (v/c)` is at most machine epsilon, `stellar_aberration` returns the target
position unchanged — no rotation is applied. -/
theorem stellar_aberration_small_h_identity (t v : Vec3) (ab : Aberration)
    (h1 : ab.stellar = true)
    (h2 : v.norm < SPEED_OF_LIGHT_KM_S)
    (h3 : ((Vec3.normalize t).cross (Vec3.smul (1 / SPEED_OF_LIGHT_KM_S) v)).norm
      ≤ EPSILON) :
    stellar_aberration t v ab = .ok t := by
  unfold stellar_aberration
  rw [if_pos h1, if_pos ((stellar_speed_iff ab v).mpr h2),
    if_neg (not_lt.mpr (by rw [sin_phi_eq]; exact h3))]

/-- Witness for `stellar_aberration_small_h_identity`: zero observer velocity. -/
theorem stellar_aberration_small_h_identity_witness :
    stellar_aberration ⟨3, 0, 0⟩ ⟨0, 0, 0⟩ Aberration.LT_S = .ok ⟨3, 0, 0⟩ := by
  apply stellar_aberration_small_h_identity
  · rfl
  · show Vec3.norm ⟨0, 0, 0⟩ < SPEED_OF_LIGHT_KM_S
    unfold Vec3.norm Vec3.dot
    simp
    exact speed_pos
  · have hz : Vec3.smul (1 / SPEED_OF_LIGHT_KM_S) ⟨0, 0, 0⟩ = ⟨0, 0, 0⟩ := by
      apply vec3_ext <;> simp [Vec3.smul]
    rw [hz]
    have hc0 : (Vec3.normalize ⟨3, 0, 0⟩).cross ⟨0, 0, 0⟩ = ⟨0, 0, 0⟩ := by
      apply vec3_ext <;> simp [Vec3.cross]
    rw [hc0]
    have hn0 : Vec3.norm ⟨0, 0, 0⟩ = 0 := by
      unfold Vec3.norm Vec3.dot
      simp
    rw [hn0]
    norm_num [EPSILON]

/-- Norm of a vector on the positive X axis. -/
theorem norm_xaxis (a : ℝ) (ha : 0 ≤ a) : Vec3.norm ⟨a, 0, 0⟩ = a := by
  show Real.sqrt (a * a + 0 * 0 + 0 * 0) = a
  rw [show (a * a + 0 * 0 + 0 * 0 : ℝ) = a * a by ring, Real.sqrt_mul_self ha]

/-- Norm of a vector on the positive Y axis. -/
theorem norm_yaxis (a : ℝ) (ha : 0 ≤ a) : Vec3.norm ⟨0, a, 0⟩ = a := by
  show Real.sqrt (0 * 0 + a * a + 0 * 0) = a
  rw [show (0 * 0 + a * a + 0 * 0 : ℝ) = a * a by ring, Real.sqrt_mul_self ha]

/-- Norm of a vector on the positive Z axis. -/
theorem norm_zaxis (a : ℝ) (ha : 0 ≤ a) : Vec3.norm ⟨0, 0, a⟩ = a := by
  show Real.sqrt (0 * 0 + 0 * 0 + a * a) = a
  rw [show (0 * 0 + 0 * 0 + a * a : ℝ) = a * a by ring, Real.sqrt_mul_self ha]

/-- Normalizing a positive X-axis vector yields the unit X vector. -/
theorem normalize_xaxis (a : ℝ) (ha : 0 < a) : Vec3.normalize ⟨a, 0, 0⟩ = ⟨1, 0, 0⟩ := by
  unfold Vec3.normalize
  rw [norm_xaxis a ha.le]
  apply vec3_ext
  · show 1 / a * a = 1
    field_simp
  · show 1 / a * 0 = 0
    ring
  · show 1 / a * 0 = 0
    ring

/-- Normalizing a positive Z-axis vector yields the unit Z vector. -/
theorem normalize_zaxis (a : ℝ) (ha : 0 < a) : Vec3.normalize ⟨0, 0, a⟩ = ⟨0, 0, 1⟩ := by
  unfold Vec3.normalize
  rw [norm_zaxis a ha.le]
  apply vec3_ext
  · show 1 / a * 0 = 0
    ring
  · show 1 / a * 0 = 0
    ring
  · show 1 / a * a = 1
    field_simp

/-- Cross product of the unit X vector with a Y-axis vector. -/
theorem cross_xaxis_yaxis (s : ℝ) :
    Vec3.cross ⟨1, 0, 0⟩ ⟨0, s, 0⟩ = ⟨0, 0, s⟩ := by
  apply vec3_ext
  · show 0 * 0 - 0 * s = 0
    ring
  · show 0 * 0 - 1 * 0 = 0
    ring
  · show 1 * s - 0 * 0 = s
    ring

/-- Scaling a Y-axis vector. -/
theorem smul_yaxis (c s : ℝ) : Vec3.smul c ⟨0, s, 0⟩ = ⟨0, c * s, 0⟩ := by
  apply vec3_ext
  · show c * 0 = 0
    ring
  · rfl
  · show c * 0 = 0
    ring

/-- Rotating the scenario target about the Z axis by an angle lands at the
expected polar position. -/
theorem rotate_target_zaxis (w θ : ℝ) (hw : 0 < w) :
    rotate_vector ⟨1e8, 0, 0⟩ ⟨0, 0, w⟩ θ =
      ⟨1e8 * Real.cos θ, 1e8 * Real.sin θ, 0⟩ := by
  unfold rotate_vector
  rw [normalize_zaxis w hw]
  have hcross : Vec3.cross ⟨0, 0, 1⟩ ⟨1e8, 0, 0⟩ = ⟨0, 1e8, 0⟩ := by
    apply vec3_ext
    · show 0 * 0 - 1 * 0 = 0
      ring
    · show 1 * 1e8 - 0 * 0 = 1e8
      ring
    · show 0 * 0 - 0 * 1e8 = 0
      ring
  have hdot : Vec3.dot ⟨0, 0, 1⟩ ⟨1e8, 0, 0⟩ = 0 := by
    show 0 * 1e8 + 0 * 0 + 1 * 0 = 0
    ring
  rw [hcross, hdot]
  apply vec3_ext
  · show Real.cos θ * 1e8 + Real.sin θ * 0 + 0 * (1 - Real.cos θ) * 0 = 1e8 * Real.cos θ
    ring
  · show Real.cos θ * 0 + Real.sin θ * 1e8 + 0 * (1 - Real.cos θ) * 0 = 1e8 * Real.sin θ
    ring
  · show Real.cos θ * 0 + Real.sin θ * 0 + 0 * (1 - Real.cos θ) * 1 = 0
    ring

/-- The aberration axis of the scenario for a transverse velocity `(0, s, 0)`
with `s ≥ 0` is the Z-axis vector of length `s / c`. -/
theorem aberration_h_transverse (s : ℝ) :
    aberration_h ⟨1e8, 0, 0⟩ Aberration.CN_S ⟨0, s, 0⟩ =
      ⟨0, 0, s / SPEED_OF_LIGHT_KM_S⟩ := by
  unfold aberration_h vbyc
  have hobs : obs_velocity Aberration.CN_S ⟨0, s, 0⟩ = ⟨0, s, 0⟩ := rfl
  rw [hobs, smul_yaxis, normalize_xaxis 1e8 (by norm_num), cross_xaxis_yaxis]
  apply vec3_ext
  · rfl
  · rfl
  · show 1 / SPEED_OF_LIGHT_KM_S * s = s / SPEED_OF_LIGHT_KM_S
    ring

/-- The aberration angle sine of the scenario for a transverse velocity. -/
theorem sin_phi_transverse (s : ℝ) (hs : 0 ≤ s) :
    sin_phi ⟨1e8, 0, 0⟩ Aberration.CN_S ⟨0, s, 0⟩ = s / SPEED_OF_LIGHT_KM_S := by
  unfold sin_phi
  rw [aberration_h_transverse, norm_zaxis _ (div_nonneg hs speed_pos.le),
    abs_of_nonneg (div_nonneg hs speed_pos.le)]

/-- C7 (amended): whenever the stellar flag is set, the observer speed is below
`c`, and the aberration angle `arcsin |u × (v/c)|` (with `v` negated in transmit
mode) strictly exceeds machine epsilon, `stellar_aberration` returns the target
rotated about `u × (v/c)` by that angle; and in the spec's concrete scenario —
target `(1e8, 0, 0)` km, observer velocity `(0, 30, 0)` km/s, `CN+S` mode — the
apparent position lies in the XY plane at angle `arcsin (30/c)` from the X axis
to within `1e-14`. -/
theorem stellar_aberration_rotates (t v : Vec3) (ab : Aberration)
    (h1 : ab.stellar = true)
    (h2 : v.norm < SPEED_OF_LIGHT_KM_S)
    (h3 : EPSILON < sin_phi t ab v) :
    stellar_aberration t v ab =
      .ok (rotate_vector t (aberration_h t ab v) (Real.arcsin (sin_phi t ab v))) ∧
    stellar_aberration c7_target c7_vel Aberration.CN_S = .ok c7_apparent ∧
    c7_apparent.z = 0 ∧
    |Real.arctan (c7_apparent.y / c7_apparent.x) -
      Real.arcsin (30 / SPEED_OF_LIGHT_KM_S)| ≤ 1e-14 := by
  have hw_pos : (0 : ℝ) < 30 / SPEED_OF_LIGHT_KM_S := div_pos (by norm_num) speed_pos
  have hw_lt1 : 30 / SPEED_OF_LIGHT_KM_S < 1 := by
    rw [div_lt_one speed_pos]
    norm_num [SPEED_OF_LIGHT_KM_S]
  refine ⟨?_, ?_, rfl, ?_⟩
  · unfold stellar_aberration
    rw [if_pos h1, if_pos ((stellar_speed_iff ab v).mpr h2), if_pos h3]
  · have h2c : Vec3.norm c7_vel < SPEED_OF_LIGHT_KM_S := by
      show Vec3.norm ⟨0, 30, 0⟩ < SPEED_OF_LIGHT_KM_S
      rw [norm_yaxis 30 (by norm_num)]
      norm_num [SPEED_OF_LIGHT_KM_S]
    have hsin : sin_phi c7_target Aberration.CN_S c7_vel = 30 / SPEED_OF_LIGHT_KM_S :=
      sin_phi_transverse 30 (by norm_num)
    have h3c : EPSILON < sin_phi c7_target Aberration.CN_S c7_vel := by
      rw [hsin]
      norm_num [EPSILON, SPEED_OF_LIGHT_KM_S]
    have hrun : stellar_aberration c7_target c7_vel Aberration.CN_S =
        .ok (rotate_vector c7_target (aberration_h c7_target Aberration.CN_S c7_vel)
          (Real.arcsin (sin_phi c7_target Aberration.CN_S c7_vel))) := by
      unfold stellar_aberration
      rw [if_pos (show Aberration.CN_S.stellar = true from rfl), if_pos ((stellar_speed_iff _ _).mpr h2c), if_pos h3c]
    rw [hrun, hsin]
    have hh : aberration_h c7_target Aberration.CN_S c7_vel =
        ⟨0, 0, 30 / SPEED_OF_LIGHT_KM_S⟩ := aberration_h_transverse 30
    rw [hh]
    exact congrArg Except.ok (rotate_target_zaxis _ _ hw_pos)
  · have hphi_lt : c7_phi < Real.pi / 2 := Real.arcsin_lt_pi_div_two.mpr hw_lt1
    have hphi_gt : -(Real.pi / 2) < c7_phi :=
      Real.neg_pi_div_two_lt_arcsin.mpr (by linarith)
    have hyx : c7_apparent.y / c7_apparent.x = Real.tan c7_phi := by
      show 1e8 * Real.sin c7_phi / (1e8 * Real.cos c7_phi) = Real.tan c7_phi
      rw [mul_div_mul_left _ _ (by norm_num : (1e8 : ℝ) ≠ 0), Real.tan_eq_sin_div_cos]
    rw [hyx, Real.arctan_tan hphi_gt hphi_lt]
    show |c7_phi - c7_phi| ≤ 1e-14
    rw [sub_self, abs_zero]
    norm_num

/-- Witness for `stellar_aberration_rotates` at the scenario inputs. -/
theorem stellar_aberration_rotates_witness :
    stellar_aberration c7_target c7_vel Aberration.CN_S =
      .ok (rotate_vector c7_target (aberration_h c7_target Aberration.CN_S c7_vel)
        (Real.arcsin (sin_phi c7_target Aberration.CN_S c7_vel))) ∧
    stellar_aberration c7_target c7_vel Aberration.CN_S = .ok c7_apparent ∧
    c7_apparent.z = 0 ∧
    |Real.arctan (c7_apparent.y / c7_apparent.x) -
      Real.arcsin (30 / SPEED_OF_LIGHT_KM_S)| ≤ 1e-14 :=
  stellar_aberration_rotates c7_target c7_vel Aberration.CN_S rfl
    (by
      show Vec3.norm ⟨0, 30, 0⟩ < SPEED_OF_LIGHT_KM_S
      rw [norm_yaxis 30 (by norm_num)]
      norm_num [SPEED_OF_LIGHT_KM_S])
    (by
      have hs : sin_phi c7_target Aberration.CN_S c7_vel = 30 / SPEED_OF_LIGHT_KM_S :=
        sin_phi_transverse 30 (by norm_num)
      rw [hs]
      norm_num [EPSILON, SPEED_OF_LIGHT_KM_S])

/-- C7 (counterexample): with a tiny transverse velocity the aberration angle is
below machine epsilon, so the source returns the target unchanged, while the
rotation the claim prescribes moves it off the X axis — the claim does not hold
for every sub-light velocity. -/
theorem stellar_aberration_not_always_rotated :
    stellar_aberration c7_target c7_tiny_vel Aberration.CN_S = .ok c7_target ∧
    rotate_vector c7_target (aberration_h c7_target Aberration.CN_S c7_tiny_vel)
      (Real.arcsin (sin_phi c7_target Aberration.CN_S c7_tiny_vel)) ≠ c7_target := by
  have hw_pos : (0 : ℝ) < 1e-12 / SPEED_OF_LIGHT_KM_S := div_pos (by norm_num) speed_pos
  have hsin : sin_phi c7_target Aberration.CN_S c7_tiny_vel =
      1e-12 / SPEED_OF_LIGHT_KM_S := sin_phi_transverse 1e-12 (by norm_num)
  have hh : aberration_h c7_target Aberration.CN_S c7_tiny_vel =
      ⟨0, 0, 1e-12 / SPEED_OF_LIGHT_KM_S⟩ := aberration_h_transverse 1e-12
  constructor
  · have h2c : Vec3.norm c7_tiny_vel < SPEED_OF_LIGHT_KM_S := by
      show Vec3.norm ⟨0, 1e-12, 0⟩ < SPEED_OF_LIGHT_KM_S
      rw [norm_yaxis 1e-12 (by norm_num)]
      norm_num [SPEED_OF_LIGHT_KM_S]
    have hsmall : ¬EPSILON < sin_phi c7_target Aberration.CN_S c7_tiny_vel := by
      rw [hsin]
      norm_num [EPSILON, SPEED_OF_LIGHT_KM_S]
    unfold stellar_aberration
    rw [if_pos (show Aberration.CN_S.stellar = true from rfl), if_pos ((stellar_speed_iff _ _).mpr h2c), if_neg hsmall]
  · have hrot : rotate_vector c7_target ⟨0, 0, 1e-12 / SPEED_OF_LIGHT_KM_S⟩
        (Real.arcsin (1e-12 / SPEED_OF_LIGHT_KM_S)) =
        ⟨1e8 * Real.cos (Real.arcsin (1e-12 / SPEED_OF_LIGHT_KM_S)),
          1e8 * Real.sin (Real.arcsin (1e-12 / SPEED_OF_LIGHT_KM_S)), 0⟩ :=
      rotate_target_zaxis _ _ hw_pos
    rw [hh, hsin, hrot]
    intro heq
    have hy := congrArg Vec3.y heq
    have hy2 : 1e8 * Real.sin (Real.arcsin (1e-12 / SPEED_OF_LIGHT_KM_S)) = 0 := hy
    have hm1 : (-1 : ℝ) ≤ 1e-12 / SPEED_OF_LIGHT_KM_S := by linarith [hw_pos]
    have hle1 : 1e-12 / SPEED_OF_LIGHT_KM_S ≤ 1 := by
      rw [div_le_one speed_pos]
      norm_num [SPEED_OF_LIGHT_KM_S]
    rw [Real.sin_arcsin hm1 hle1] at hy2
    norm_num [SPEED_OF_LIGHT_KM_S] at hy2

/-- Transposition reverses DCM composition, also for the derivative part. -/
theorem transposeD_compose (a b : DCM) :
    DCM.transposeD (DCM.compose a b) =
      DCM.compose (DCM.transposeD b) (DCM.transposeD a) := by
  unfold DCM.compose DCM.transposeD
  simp only [DCM.mk.injEq]
  constructor
  · rw [Matrix.transpose_mul]
  · rw [Matrix.transpose_add, Matrix.transpose_mul, Matrix.transpose_mul, add_comm]

/-- Transposing a DCM twice is the identity. -/
theorem transposeD_transposeD (a : DCM) : DCM.transposeD (DCM.transposeD a) = a := by
  unfold DCM.transposeD
  simp

/-- Swapping the legs of the composed rotation transposes it. -/
theorem rotate_from_to_m_swap (fromLeg toLeg : List DCM) :
    rotate_from_to_m toLeg fromLeg = DCM.transposeD (rotate_from_to_m fromLeg toLeg) := by
  unfold rotate_from_to_m
  rw [transposeD_compose, transposeD_transposeD]

/-- The Frobenius norm of the zero matrix. -/
theorem frob_zero : frob 0 = 0 := by
  unfold frob
  simp

/-- C8: the rotation matrix composed for `(B, A)` equals the transpose of the
one composed for `(A, B)` exactly, and likewise for the derivative matrix, so
both Frobenius distances are within `1e-12`. -/
theorem rotate_transpose_symmetry (fromLeg toLeg : List DCM) :
    frob ((rotate_from_to_m toLeg fromLeg).rot_mat -
        ((rotate_from_to_m fromLeg toLeg).rot_mat).transpose) ≤ 1e-12 ∧
    frob ((rotate_from_to_m toLeg fromLeg).rot_mat_dt -
        ((rotate_from_to_m fromLeg toLeg).rot_mat_dt).transpose) ≤ 1e-12 := by
  rw [rotate_from_to_m_swap]
  constructor
  · show frob ((DCM.transposeD (rotate_from_to_m fromLeg toLeg)).rot_mat -
      ((rotate_from_to_m fromLeg toLeg).rot_mat).transpose) ≤ 1e-12
    rw [show (DCM.transposeD (rotate_from_to_m fromLeg toLeg)).rot_mat =
      ((rotate_from_to_m fromLeg toLeg).rot_mat).transpose from rfl]
    rw [sub_self, frob_zero]
    norm_num
  · show frob ((DCM.transposeD (rotate_from_to_m fromLeg toLeg)).rot_mat_dt -
      ((rotate_from_to_m fromLeg toLeg).rot_mat_dt).transpose) ≤ 1e-12
    rw [show (DCM.transposeD (rotate_from_to_m fromLeg toLeg)).rot_mat_dt =
      ((rotate_from_to_m fromLeg toLeg).rot_mat_dt).transpose from rfl]
    rw [sub_self, frob_zero]
    norm_num

/-- Witness for `rotate_transpose_symmetry` on empty legs. -/
theorem rotate_transpose_symmetry_witness :
    frob ((rotate_from_to_m [] []).rot_mat -
        ((rotate_from_to_m [] []).rot_mat).transpose) ≤ 1e-12 ∧
    frob ((rotate_from_to_m [] []).rot_mat_dt -
        ((rotate_from_to_m [] []).rot_mat_dt).transpose) ≤ 1e-12 :=
  rotate_transpose_symmetry [] []

end Anise
